import Mathlib

/-!
# SummaryPlugin: line collection and summary formatting

A shallow embedding of `SummaryPlugin.cpp`.

* `std::string` / `StringRef` values are lists of characters.
* `unsigned` values are natural numbers.  The program only inserts line numbers
  into a set, tests them against zero and counts them; it performs no arithmetic
  on them, so no wrap-around can arise.
* `llvm::DenseSet<unsigned>` is a finite set of naturals (`Finset Nat`) and
  `size()` is the cardinality.  The container reserves the keys `~0U` and
  `~0U - 1` for its empty and tombstone buckets; inserting one of them is outside
  its contract (an assertion failure where assertions are compiled in, an
  unspecified size otherwise), so `insert` is fallible and returns `none` there.
* `llvm::errs() << ...` is modelled by returning the characters written.
* `std::getenv` is a lookup function from names to optional values.
* The host's `RecursiveASTVisitor` is modelled by the sequence of statement
  nodes it hands to `VisitStmt`, one call per node, until a call returns `false`.
-/

namespace SummaryPlugin

/-! ## Definitions -/

/-- Name of the environment variable that overrides the format string. -/
def FMT_ENV_VAR : List Char := "SUMMARYPLUGIN_FMT".toList

/-- Conversion character for the file name (`enum ConversionChar`). -/
def CONV_FILE : Char := 'F'

/-- Conversion character for the line count (`enum ConversionChar`). -/
def CONV_LINE : Char := 'L'

/-- Decimal rendering of an unsigned value (`std::to_string`). -/
def to_string (n : Nat) : List Char := Nat.toDigits 10 n

/-- Results for one translation unit (`class TranslationSummary`). -/
structure TranslationSummary where
  Filename : List Char
  LineNumbers : Finset Nat
  deriving DecidableEq

/-- Constructor `TranslationSummary(StringRef InFile)`: the line set starts empty. -/
def TranslationSummary.new (InFile : List Char) : TranslationSummary :=
  { Filename := InFile, LineNumbers := ∅ }

/-- Library `DenseMapInfo<unsigned>::getEmptyKey()`, the value `~0U`. -/
def DenseSetEmptyKey : Nat := 4294967295

/-- Library `DenseMapInfo<unsigned>::getTombstoneKey()`, the value `~0U - 1`. -/
def DenseSetTombstoneKey : Nat := 4294967294

/-- Whether a key is one of the two values the container keeps for itself. -/
def isReservedKey (k : Nat) : Bool :=
  decide (k = DenseSetEmptyKey) || decide (k = DenseSetTombstoneKey)

/-- Library `DenseSet<unsigned>::insert`: set insertion; `none` when the key is
reserved, where the container asserts or, without assertions, leaves a size that
depends on the order of insertion. -/
def denseSetInsert (s : Finset Nat) (k : Nat) : Option (Finset Nat) :=
  if isReservedKey k then none else some (insert k s)

/-- Member `addLineNumber`: insert into the set. -/
def TranslationSummary.addLineNumber (S : TranslationSummary) (Line : Nat) :
    Option TranslationSummary :=
  match denseSetInsert S.LineNumbers Line with
  | none => none
  | some s => some { S with LineNumbers := s }

/-- One iteration of the scan loop of `dump`; the state is `(Buffer, Last)`. -/
def dumpStep (S : TranslationSummary) (st : List Char × Char) (C : Char) :
    List Char × Char :=
  let Buffer := st.1
  let Last := st.2
  let Buffer :=
    if Last = '%' then
      if C = CONV_FILE then Buffer ++ S.Filename
      else if C = CONV_LINE then Buffer ++ to_string S.LineNumbers.card
      else Buffer ++ [C]
    else if C = '%' then Buffer
    else Buffer ++ [C]
  (Buffer, C)

/-- The scan loop of `dump` run from a given `(Buffer, Last)` state. -/
def dumpLoop (S : TranslationSummary) (st : List Char × Char) (FormatString : List Char) :
    List Char × Char :=
  FormatString.foldl (dumpStep S) st

/-- The `Buffer` that `dump` builds: the loop started with an empty buffer and `Last = 0`. -/
def dumpBuffer (S : TranslationSummary) (FormatString : List Char) : List Char :=
  (dumpLoop S ([], Char.ofNat 0) FormatString).1

/-- Member `dump`: the characters written to the error stream. -/
def dump (S : TranslationSummary) (FormatString : List Char) : List Char :=
  if FormatString.length = 0 then []
  else dumpBuffer S FormatString ++ ['\n']

/-- Text appended by the `switch` of `dump` for a character that follows a `%`. -/
def convText (S : TranslationSummary) (C : Char) : List Char :=
  if C = CONV_FILE then S.Filename
  else if C = CONV_LINE then to_string S.LineNumbers.card
  else [C]

/-- Text appended to the buffer by the rest of the loop, given only whether `Last` is a `%`.
This is a proof device: `dumpLoop_fst` shows the loop computes it. -/
def emit (S : TranslationSummary) : Bool → List Char → List Char
  | _, [] => []
  | true, C :: t => convText S C ++ emit S (decide (C = '%')) t
  | false, C :: t => if C = '%' then emit S true t else C :: emit S false t

/-! ### Line collection -/

/-- An opaque source location handle. -/
abbrev SourceLocation := Nat

/-- Result of `SourceManager::getPresumedLoc`: validity flag and presumed line. -/
structure PresumedLoc where
  isValid : Bool
  getLine : Nat

/-- The location-resolution capability supplied by the host. -/
structure SourceManager where
  getSpellingLoc : SourceLocation → SourceLocation
  getPresumedLoc : SourceLocation → PresumedLoc

/-- A statement node; only its start location is read. -/
structure Stmt where
  getLocStart : SourceLocation
  deriving DecidableEq

/-- Member `TranslationVisitor::getLineNumber`: `0` for an invalid presumed location. -/
def getLineNumber (SM : SourceManager) (Loc : SourceLocation) : Nat :=
  let SLoc := SM.getSpellingLoc Loc
  let PLoc := SM.getPresumedLoc SLoc
  if !PLoc.isValid then 0
  else PLoc.getLine

/-- Member `TranslationVisitor::VisitStmt`: the return value and the updated summary;
`none` if the insertion fails. -/
def VisitStmt (SM : SourceManager) (Summary : TranslationSummary) (S : Stmt) :
    Option (Bool × TranslationSummary) :=
  let Line := getLineNumber SM S.getLocStart
  if Line ≠ 0 then
    match Summary.addLineNumber Line with
    | none => none
    | some Summary => some (true, Summary)
  else some (true, Summary)

/-- The host's walk: `VisitStmt` is called on each node in turn and the walk is
abandoned as soon as a call returns `false`; a failed call ends the run. -/
def visitAll (SM : SourceManager) : List Stmt → TranslationSummary → Option TranslationSummary
  | [], Summary => some Summary
  | S :: rest, Summary =>
    match VisitStmt SM Summary S with
    | none => none
    | some r => if r.1 then visitAll SM rest r.2 else some r.2

/-- Validity component of the resolution of a statement's start location. -/
def stmtValid (SM : SourceManager) (S : Stmt) : Bool :=
  (SM.getPresumedLoc (SM.getSpellingLoc S.getLocStart)).isValid

/-- Line component of the resolution of a statement's start location. -/
def stmtLine (SM : SourceManager) (S : Stmt) : Nat :=
  (SM.getPresumedLoc (SM.getSpellingLoc S.getLocStart)).getLine

/-- Whether visiting the statement inserts a reserved key. -/
def stmtReserved (SM : SourceManager) (S : Stmt) : Bool :=
  stmtValid SM S && isReservedKey (stmtLine SM S)

/-- The lines a sequence of statements contributes: those of the statements whose
location is valid and whose line is not zero. -/
def collectedLines (SM : SourceManager) (stmts : List Stmt) : Finset Nat :=
  ((stmts.filter (fun n => stmtValid SM n && decide (stmtLine SM n ≠ 0))).map
    (stmtLine SM)).toFinset

/-- A source manager in which a location is its own line number and is always valid. -/
def lineSM : SourceManager :=
  { getSpellingLoc := fun l => l, getPresumedLoc := fun l => { isValid := true, getLine := l } }

/-- A source manager in which a location is its own line number and is valid exactly
when it is below `100`. -/
def boundedSM : SourceManager :=
  { getSpellingLoc := fun l => l,
    getPresumedLoc := fun l => { isValid := decide (l < 100), getLine := l } }

/-! ### Consumer and action -/

/-- Per translation unit consumer (`class SummaryPluginConsumer`). -/
structure SummaryPluginConsumer where
  FileName : List Char
  FormatString : List Char
  deriving DecidableEq

/-- Member `HandleTranslationUnit`: build a summary, walk the statements, dump it.
The result is the text written to the error stream; `none` if the walk fails. -/
def SummaryPluginConsumer.HandleTranslationUnit (self : SummaryPluginConsumer)
    (SM : SourceManager) (stmts : List Stmt) : Option (List Char) :=
  let Summary := TranslationSummary.new self.FileName
  match visitAll SM stmts Summary with
  | none => none
  | some Summary => some (dump Summary self.FormatString)

/-- The plugin action (`class SummaryPluginAction`). -/
structure SummaryPluginAction where
  FormatString : List Char
  deriving DecidableEq

/-- Member `CreateASTConsumer`. -/
def SummaryPluginAction.CreateASTConsumer (self : SummaryPluginAction) (InFile : List Char) :
    SummaryPluginConsumer :=
  { FileName := InFile, FormatString := self.FormatString }

/-- Search of `std::string::find` from a given position; `none` is `npos`. -/
def findFrom (pat : List Char) : List Char → Nat → Option Nat
  | [], pos => if pat = [] then some pos else none
  | c :: cs, pos => if pat.isPrefixOf (c :: cs) then some pos else findFrom pat cs (pos + 1)

/-- Library `std::string::find(pat)`: position of the first occurrence, `none` for `npos`. -/
def find (s pat : List Char) : Option Nat := findFrom pat s 0

/-- Library `std::string::substr(pos)`: `none` stands for the `std::out_of_range` exception. -/
def substr (s : List Char) (pos : Nat) : Option (List Char) :=
  if pos ≤ s.length then some (s.drop pos) else none

/-- The option marker `"-fmt="`. -/
def fmtOpt : List Char := "-fmt=".toList

/-- Library `strlen` of a literal without embedded NUL. -/
def strlen (s : List Char) : Nat := s.length

/-- The argument loop of `ParseArgs`, threading `FormatString`. -/
def parseArgsLoop : List (List Char) → List Char → Option (List Char)
  | [], FormatString => some FormatString
  | a :: rest, FormatString =>
    if find a fmtOpt = some 0 then
      match substr a (strlen fmtOpt) with
      | some v => parseArgsLoop rest v
      | none => none
    else parseArgsLoop rest FormatString

/-- Member `ParseArgs`: the return value and the updated action; `none` if an
exception escapes. -/
def SummaryPluginAction.ParseArgs (_self : SummaryPluginAction) (Args : List (List Char))
    (getenv : List Char → Option (List Char)) : Option (Bool × SummaryPluginAction) :=
  let FormatString := "[%F] -- %L Lines".toList
  match parseArgsLoop Args FormatString with
  | none => none
  | some FormatString =>
    let FormatString :=
      match getenv FMT_ENV_VAR with
      | some E => E
      | none => FormatString
    some (true, { FormatString := FormatString })

/-! ### Specification-side definitions -/

/-- Template resolution as the specification words it: the environment value if set,
otherwise the text after `-fmt=` of the last argument beginning with `-fmt=`,
otherwise the built-in default. -/
def resolveTemplateSpec (Args : List (List Char)) (envValue : Option (List Char)) :
    List Char :=
  match envValue with
  | some v => v
  | none =>
    match (Args.filter (fun a => fmtOpt.isPrefixOf a)).getLast? with
    | some a => a.drop 5
    | none => "[%F] -- %L Lines".toList

/-- Every `%` of the template is immediately followed by `F` or `L`. -/
def EachPercentConverts (t : List Char) : Prop :=
  ∀ i, i < t.length → t[i]? = some '%' → (t[i + 1]? = some 'F' ∨ t[i + 1]? = some 'L')

instance (t : List Char) : Decidable (EachPercentConverts t) :=
  inferInstanceAs (Decidable (∀ i, i < t.length → t[i]? = some '%' →
    (t[i + 1]? = some 'F' ∨ t[i + 1]? = some 'L')))

/-- No `%` of the template is immediately followed by another `%`. -/
def NoAdjacentPercent (t : List Char) : Prop :=
  ∀ i, i < t.length → t[i]? = some '%' → t[i + 1]? ≠ some '%'

instance (t : List Char) : Decidable (NoAdjacentPercent t) :=
  inferInstanceAs (Decidable (∀ i, i < t.length → t[i]? = some '%' → t[i + 1]? ≠ some '%'))

/-- The template with each `%F` replaced by `f` and each `%L` replaced by `n`,
scanning left to right without rescanning inserted text. -/
def substitute (f n : List Char) : List Char → List Char
  | [] => []
  | [c] => [c]
  | c :: d :: rest =>
    if c = '%' ∧ d = 'F' then f ++ substitute f n rest
    else if c = '%' ∧ d = 'L' then n ++ substitute f n rest
    else c :: substitute f n (d :: rest)

/-- States of the two-state scanner of the specification. -/
inductive ScanState where
  | Normal
  | PendingPercent
  deriving DecidableEq, Repr

/-- One transition of the specification's scanner: emitted text and next state. -/
def scanStepSpec (f n : List Char) : ScanState → Char → List Char × ScanState
  | ScanState.Normal, c =>
    if c = '%' then ([], ScanState.PendingPercent) else ([c], ScanState.Normal)
  | ScanState.PendingPercent, c =>
    (if c = 'F' then f else if c = 'L' then n else [c], ScanState.Normal)

/-- Output of the specification's scanner from a given state. -/
def scanRunSpec (f n : List Char) : ScanState → List Char → List Char
  | _, [] => []
  | q, c :: t => (scanStepSpec f n q c).1 ++ scanRunSpec f n (scanStepSpec f n q c).2 t

/-- The scanner with one transition changed: in `PendingPercent`, a consumed `%`
leaves the machine in `PendingPercent` instead of returning it to `Normal`. -/
def scanStepLast (f n : List Char) : ScanState → Char → List Char × ScanState
  | ScanState.Normal, c =>
    if c = '%' then ([], ScanState.PendingPercent) else ([c], ScanState.Normal)
  | ScanState.PendingPercent, c =>
    (if c = 'F' then f else if c = 'L' then n else [c],
      if c = '%' then ScanState.PendingPercent else ScanState.Normal)

/-- Output of the changed scanner from a given state. -/
def scanRunLast (f n : List Char) : ScanState → List Char → List Char
  | _, [] => []
  | q, c :: t => (scanStepLast f n q c).1 ++ scanRunLast f n (scanStepLast f n q c).2 t

/-! ## The scan loop -/

theorem dumpLoop_nil (S : TranslationSummary) (st : List Char × Char) :
    dumpLoop S st [] = st := rfl

theorem dumpLoop_cons (S : TranslationSummary) (st : List Char × Char) (C : Char)
    (t : List Char) : dumpLoop S st (C :: t) = dumpLoop S (dumpStep S st C) t := rfl

theorem dumpStep_fst (S : TranslationSummary) (Buffer : List Char) (Last C : Char) :
    (dumpStep S (Buffer, Last) C).1
      = Buffer ++ emit S (decide (Last = '%')) [C] := by
  simp only [dumpStep]
  split_ifs <;> simp_all [emit, convText]

theorem dumpStep_snd (S : TranslationSummary) (st : List Char × Char) (C : Char) :
    (dumpStep S st C).2 = C := rfl

theorem emit_cons_singleton (S : TranslationSummary) (p : Bool) (C : Char) (t : List Char) :
    emit S p (C :: t) = emit S p [C] ++ emit S (decide (C = '%')) t := by
  cases p
  · by_cases hC : C = '%'
    · simp [emit, hC]
    · simp [emit, hC]
  · simp [emit]

/-- The buffer after the loop is the initial buffer followed by `emit`. -/
theorem dumpLoop_fst (S : TranslationSummary) (t : List Char) :
    ∀ (Buffer : List Char) (Last : Char),
      (dumpLoop S (Buffer, Last) t).1 = Buffer ++ emit S (decide (Last = '%')) t := by
  induction t with
  | nil => intro Buffer Last; simp [dumpLoop_nil, emit]
  | cons C t ih =>
    intro Buffer Last
    have h : dumpStep S (Buffer, Last) C = ((dumpStep S (Buffer, Last) C).1, C) := rfl
    rw [dumpLoop_cons, h, ih, dumpStep_fst, emit_cons_singleton S _ C t, List.append_assoc]

theorem dumpBuffer_eq_emit (S : TranslationSummary) (t : List Char) :
    dumpBuffer S t = emit S false t := by
  have h := dumpLoop_fst S t [] (Char.ofNat 0)
  have h0 : decide (Char.ofNat 0 = '%') = false := by decide
  rw [h0] at h
  simpa [dumpBuffer] using h

theorem emit_append (S : TranslationSummary) (a : List Char) :
    ∀ (p : Bool) (b : List Char),
      emit S p (a ++ b)
        = emit S p a ++ emit S (a.getLast?.elim p (fun C => decide (C = '%'))) b := by
  induction a with
  | nil => intro p b; simp [emit]
  | cons C t ih =>
    intro p b
    rw [List.cons_append, emit_cons_singleton S p C (t ++ b), ih,
      emit_cons_singleton S p C t, List.append_assoc]
    cases t with
    | nil => simp
    | cons D u => simp [List.getLast?_eq_getLast (D :: u) (List.cons_ne_nil D u)]

/-- If the scanned text does not end in `%`, the loop is not pending afterwards. -/
theorem not_pending_of_getLast (a : List Char) (h : a.getLast? ≠ some '%') :
    a.getLast?.elim false (fun C => decide (C = '%')) = false := by
  cases hl : a.getLast? with
  | none => rfl
  | some c =>
    have hc : c ≠ '%' := fun e => h (by rw [hl, e])
    simp [hc]

theorem dumpBuffer_append_of_not_pending (S : TranslationSummary) (a b : List Char)
    (h : a.getLast? ≠ some '%') :
    dumpBuffer S (a ++ b) = dumpBuffer S a ++ dumpBuffer S b := by
  rw [dumpBuffer_eq_emit, dumpBuffer_eq_emit, dumpBuffer_eq_emit, emit_append,
    not_pending_of_getLast a h]

theorem dumpBuffer_snoc_after_percent (S : TranslationSummary) (p : List Char) (C : Char) :
    dumpBuffer S (p ++ ['%', C]) = dumpBuffer S (p ++ ['%']) ++ convText S C := by
  have e : p ++ ['%', C] = (p ++ ['%']) ++ [C] := by simp
  rw [e, dumpBuffer_eq_emit, dumpBuffer_eq_emit, emit_append S (p ++ ['%'])]
  simp [emit]

theorem dump_cons (S : TranslationSummary) (c : Char) (t : List Char) :
    dump S (c :: t) = dumpBuffer S (c :: t) ++ ['\n'] := by
  simp [dump]

/-! ## Claims about `dump` -/

/-- C5: `dump` writes nothing at all for the empty template; for every non-empty
template it writes the built buffer followed by exactly one newline; hence the output
is empty if and only if the template is empty, and the template `%` (whose buffer is
empty) still yields a blank line. -/
theorem C5_empty_template_no_output (S : TranslationSummary) :
    dump S [] = []
    ∧ (∀ (c : Char) (t : List Char), dump S (c :: t) = dumpBuffer S (c :: t) ++ ['\n'])
    ∧ (∀ t : List Char, dump S t = [] ↔ t = [])
    ∧ (dumpBuffer S ['%'] = [] ∧ dump S ['%'] = ['\n']) := by
  refine ⟨rfl, dump_cons S, ?_, rfl, rfl⟩
  intro t
  cases t with
  | nil => simp [dump]
  | cons c u => simp [dump]

/-- C6 (counterexample): with file name `foo.c` and lines `{1,2,3}` the template
`100%% done` is rendered as `100% done`, which contains a `%`: the second `%` is
not swallowed. -/
theorem C6_double_percent_counterexample :
    dumpBuffer ⟨"foo.c".toList, {1, 2, 3}⟩ "100%% done".toList = "100% done".toList
    ∧ '%' ∈ dumpBuffer ⟨"foo.c".toList, {1, 2, 3}⟩ "100%% done".toList
    ∧ '%' ∈ dump ⟨"foo.c".toList, {1, 2, 3}⟩ "100%% done".toList := by
  decide

/-- C6 (amended): a `%` that is immediately preceded by another `%` is emitted as a
literal `%` (the text built for `p ++ "%%"` is the text built for `p ++ "%"` followed
by `%`); in particular, for every file name and line set, `100%% done` is rendered as
`100% done` and written with a newline. -/
theorem C6_double_percent_emits_percent (S : TranslationSummary) :
    (∀ p : List Char, dumpBuffer S (p ++ ['%', '%']) = dumpBuffer S (p ++ ['%']) ++ ['%'])
    ∧ dumpBuffer S "100%% done".toList = "100% done".toList
    ∧ dump S "100%% done".toList = "100% done\n".toList := by
  refine ⟨fun p => ?_, rfl, rfl⟩
  rw [dumpBuffer_snoc_after_percent]
  rfl

/-- C8: for every character `c` other than `F` and `L` and every template prefix `p`
that does not end in `%`, the text built for `p ++ "%" ++ [c]` is the text built for
`p` followed by `c` alone. -/
theorem C8_unknown_conversion_literal (S : TranslationSummary) (p : List Char) (c : Char)
    (hF : c ≠ 'F') (hL : c ≠ 'L') (hp : p.getLast? ≠ some '%') :
    dumpBuffer S (p ++ ['%'] ++ [c]) = dumpBuffer S p ++ [c] := by
  rw [List.append_assoc, dumpBuffer_append_of_not_pending S p _ hp]
  have h : dumpBuffer S (['%'] ++ [c]) = [c] := by
    rw [dumpBuffer_eq_emit]
    simp [emit, convText, CONV_FILE, CONV_LINE, hF, hL]
  rw [h]

theorem C8_unknown_conversion_literal_witness :
    ('x' ≠ 'F' ∧ 'x' ≠ 'L' ∧ "ab".toList.getLast? ≠ some '%')
    ∧ dumpBuffer ⟨"foo.c".toList, {1, 2, 3}⟩ ("ab".toList ++ ['%'] ++ ['x'])
        = dumpBuffer ⟨"foo.c".toList, {1, 2, 3}⟩ "ab".toList ++ ['x']
    ∧ dumpBuffer ⟨"foo.c".toList, {1, 2, 3}⟩ "ab".toList ++ ['x'] = "abx".toList :=
  ⟨by decide,
    C8_unknown_conversion_literal ⟨"foo.c".toList, {1, 2, 3}⟩ "ab".toList 'x'
      (by decide) (by decide) (by decide),
    by decide⟩

/-- C10: for all templates `a` and `b` such that `a` is empty or its last character
is not `%`, the buffer built for `a ++ b` is the buffer built for `a` followed by the
buffer built for `b`. -/
theorem C10_render_append (S : TranslationSummary) (a b : List Char)
    (h : a = [] ∨ ∃ c, a.getLast? = some c ∧ c ≠ '%') :
    dumpBuffer S (a ++ b) = dumpBuffer S a ++ dumpBuffer S b := by
  apply dumpBuffer_append_of_not_pending
  rcases h with h | ⟨c, hc, hne⟩
  · simp [h]
  · rw [hc]
    intro e
    exact hne (Option.some.inj e)

theorem C10_render_append_witness :
    ("[%F]".toList = [] ∨ ∃ c, "[%F]".toList.getLast? = some c ∧ c ≠ '%')
    ∧ dumpBuffer ⟨"foo.c".toList, {1, 2, 3}⟩ ("[%F]".toList ++ "%L!".toList)
        = dumpBuffer ⟨"foo.c".toList, {1, 2, 3}⟩ "[%F]".toList
          ++ dumpBuffer ⟨"foo.c".toList, {1, 2, 3}⟩ "%L!".toList
    ∧ dumpBuffer ⟨"foo.c".toList, {1, 2, 3}⟩ ("[%F]".toList ++ "%L!".toList)
        = "[foo.c]3!".toList :=
  ⟨Or.inr ⟨']', by decide, by decide⟩,
    C10_render_append ⟨"foo.c".toList, {1, 2, 3}⟩ "[%F]".toList "%L!".toList
      (Or.inr ⟨']', by decide, by decide⟩),
    by decide⟩

/-! ## Substitution and the two-state scanner -/

theorem eachPercentConverts_tail {c : Char} {t : List Char}
    (h : EachPercentConverts (c :: t)) : EachPercentConverts t := by
  intro i hi hp
  have h1 := h (i + 1) (by simpa using hi) (by simpa using hp)
  simpa using h1

theorem noAdjacentPercent_tail {c : Char} {t : List Char}
    (h : NoAdjacentPercent (c :: t)) : NoAdjacentPercent t := by
  intro i hi hp
  have h1 := h (i + 1) (by simpa using hi) (by simpa using hp)
  simpa using h1

/-- On a template whose every `%` is followed by `F` or `L`, the loop performs the
substitution. -/
theorem emit_eq_substitute (S : TranslationSummary) :
    ∀ (n : Nat) (t : List Char), t.length ≤ n → EachPercentConverts t →
      emit S false t = substitute S.Filename (to_string S.LineNumbers.card) t := by
  intro n
  induction n with
  | zero =>
    intro t hlen _
    have ht : t = [] := List.length_eq_zero.mp (Nat.le_zero.mp hlen)
    subst ht
    rfl
  | succ n ih =>
    intro t hlen h
    match t, hlen, h with
    | [], _, _ => rfl
    | [c], _, h =>
      have hc : c ≠ '%' := by
        intro e
        have h0 := h 0 (by simp) (by simp [e])
        simp at h0
      simp [emit, substitute, hc]
    | c :: d :: rest, hlen, h =>
      have hrest : rest.length ≤ n := by
        simp only [List.length_cons] at hlen
        omega
      have htail : EachPercentConverts (d :: rest) := eachPercentConverts_tail h
      by_cases hc : c = '%'
      · have h0 := h 0 (by simp) (by simp [hc])
        have ihr := ih rest hrest (eachPercentConverts_tail htail)
        have hd : d = 'F' ∨ d = 'L' := by simpa using h0
        rcases hd with hd | hd
        · subst hc; subst hd
          simp [emit, substitute, convText, CONV_FILE, ihr]
        · subst hc; subst hd
          simp [emit, substitute, convText, CONV_FILE, CONV_LINE, ihr]
      · have ihr := ih (d :: rest) (by simp only [List.length_cons] at hlen ⊢; omega) htail
        simp [emit, substitute, hc]
        simpa [emit] using ihr

/-- The loop is the scanner whose `PendingPercent` state persists after a consumed `%`. -/
theorem emit_eq_scanRunLast (S : TranslationSummary) (t : List Char) :
    ∀ p : Bool,
      emit S p t
        = scanRunLast S.Filename (to_string S.LineNumbers.card)
            (if p then ScanState.PendingPercent else ScanState.Normal) t := by
  induction t with
  | nil => intro p; cases p <;> rfl
  | cons c t ih =>
    intro p
    cases p
    · by_cases hc : c = '%'
      · simp [emit, scanRunLast, scanStepLast, hc, ih]
      · simp [emit, scanRunLast, scanStepLast, hc, ih]
    · by_cases hc : c = '%'
      · simp [emit, scanRunLast, scanStepLast, convText, CONV_FILE, CONV_LINE, hc, ih]
      · simp [emit, scanRunLast, scanStepLast, convText, CONV_FILE, CONV_LINE, hc, ih]

/-- Without adjacent `%` characters the loop agrees with the specification's scanner. -/
theorem emit_eq_scanRunSpec (S : TranslationSummary) (t : List Char) :
    NoAdjacentPercent t →
      emit S false t
          = scanRunSpec S.Filename (to_string S.LineNumbers.card) ScanState.Normal t
      ∧ (t.head? ≠ some '%' →
          emit S true t
            = scanRunSpec S.Filename (to_string S.LineNumbers.card)
                ScanState.PendingPercent t) := by
  induction t with
  | nil => intro _; exact ⟨rfl, fun _ => rfl⟩
  | cons c t ih =>
    intro h
    have ⟨ih1, ih2⟩ := ih (noAdjacentPercent_tail h)
    constructor
    · by_cases hc : c = '%'
      · have h0 := h 0 (by simp) (by simp [hc])
        have hh : t.head? ≠ some '%' := by
          cases t with
          | nil => simp
          | cons d u => simpa using h0
        simp [emit, scanRunSpec, scanStepSpec, hc, ih2 hh]
      · simp [emit, scanRunSpec, scanStepSpec, hc, ih1]
    · intro hh
      have hc : c ≠ '%' := by simpa using hh
      simp [emit, scanRunSpec, scanStepSpec, convText, CONV_FILE, CONV_LINE, hc, ih1]

/-- C3: for every file name, line set and template in which each `%` is immediately
followed by `F` or `L`, the text built by `dump` is the template with every `%F`
replaced by the file name verbatim and every `%L` replaced by the decimal
representation of the number of elements of the line set. -/
theorem C3_conversion_substitution (f : List Char) (s : Finset Nat) (t : List Char)
    (h : EachPercentConverts t) :
    dumpBuffer ⟨f, s⟩ t = substitute f (to_string s.card) t := by
  rw [dumpBuffer_eq_emit]
  exact emit_eq_substitute ⟨f, s⟩ t.length t (Nat.le_refl _) h

theorem C3_conversion_substitution_witness :
    (EachPercentConverts "%L:%F".toList
      ∧ dumpBuffer ⟨"a.c".toList, {2, 3, 5, 7, 11}⟩ "%L:%F".toList
          = substitute "a.c".toList (to_string ({2, 3, 5, 7, 11} : Finset Nat).card)
              "%L:%F".toList)
    ∧ dumpBuffer ⟨"a.c".toList, {2, 3, 5, 7, 11}⟩ "%L:%F".toList = "5:a.c".toList
    ∧ dumpBuffer ⟨"%L".toList, {40, 90}⟩ "%F=%L".toList = "%L=2".toList :=
  ⟨⟨by decide, C3_conversion_substitution "a.c".toList {2, 3, 5, 7, 11} "%L:%F".toList
    (by decide)⟩, by decide, by decide⟩

/-- C9 (counterexample): on the template `%%F` with file name `a.c` the loop of
`dump` builds `%a.c`, whereas the specification's two-state scanner produces `%F`. -/
theorem C9_scanner_counterexample :
    dumpBuffer ⟨"a.c".toList, {1, 2, 3}⟩ "%%F".toList = "%a.c".toList
    ∧ scanRunSpec "a.c".toList (to_string 3) ScanState.Normal "%%F".toList = "%F".toList
    ∧ dumpBuffer ⟨"a.c".toList, {1, 2, 3}⟩ "%%F".toList
        ≠ scanRunSpec "a.c".toList (to_string ({1, 2, 3} : Finset Nat).card)
            ScanState.Normal "%%F".toList := by
  decide

/-- C9 (amended): for every template, file name and line set, the text built by
`dump` equals the output of the two-state scanner in which `PendingPercent`, after
consuming a `%`, stays in `PendingPercent` (and returns to `Normal` after any other
character); and on every template with no two adjacent `%` characters it equals
the output of the specification's scanner. -/
theorem C9_scanner_equivalence (f : List Char) (s : Finset Nat) :
    (∀ t : List Char,
      dumpBuffer ⟨f, s⟩ t = scanRunLast f (to_string s.card) ScanState.Normal t)
    ∧ (∀ t : List Char, NoAdjacentPercent t →
      dumpBuffer ⟨f, s⟩ t = scanRunSpec f (to_string s.card) ScanState.Normal t) := by
  constructor
  · intro t
    rw [dumpBuffer_eq_emit]
    exact emit_eq_scanRunLast ⟨f, s⟩ t false
  · intro t h
    rw [dumpBuffer_eq_emit]
    exact (emit_eq_scanRunSpec ⟨f, s⟩ t h).1

theorem C9_scanner_equivalence_witness :
    NoAdjacentPercent "[%F] %x %L".toList
    ∧ dumpBuffer ⟨"a.c".toList, {1, 2, 3}⟩ "[%F] %x %L".toList
        = scanRunSpec "a.c".toList (to_string ({1, 2, 3} : Finset Nat).card)
            ScanState.Normal "[%F] %x %L".toList
    ∧ dumpBuffer ⟨"a.c".toList, {1, 2, 3}⟩ "%%F".toList
        = scanRunLast "a.c".toList (to_string ({1, 2, 3} : Finset Nat).card)
            ScanState.Normal "%%F".toList :=
  ⟨by decide,
    (C9_scanner_equivalence "a.c".toList {1, 2, 3}).2 "[%F] %x %L".toList (by decide),
    (C9_scanner_equivalence "a.c".toList {1, 2, 3}).1 "%%F".toList⟩

/-! ## Line collection -/

theorem getLineNumber_eq (SM : SourceManager) (S : Stmt) :
    getLineNumber SM S.getLocStart = if stmtValid SM S then stmtLine SM S else 0 := by
  simp only [getLineNumber, stmtValid, stmtLine]
  cases (SM.getPresumedLoc (SM.getSpellingLoc S.getLocStart)).isValid <;> simp

/-- What one call of `VisitStmt` does, by cases on the resolved location. -/
theorem VisitStmt_eq (SM : SourceManager) (Summary : TranslationSummary) (S : Stmt) :
    VisitStmt SM Summary S
      = if stmtValid SM S = true ∧ stmtLine SM S ≠ 0 then
          (if isReservedKey (stmtLine SM S) then none
           else some (true, { Summary with
                  LineNumbers := insert (stmtLine SM S) Summary.LineNumbers }))
        else some (true, Summary) := by
  simp only [VisitStmt]
  rw [getLineNumber_eq]
  cases hv : stmtValid SM S
  · simp
  · by_cases hl : stmtLine SM S = 0
    · simp [hl]
    · cases hr : isReservedKey (stmtLine SM S) <;>
        simp [hl, hr, TranslationSummary.addLineNumber, denseSetInsert]

theorem isReservedKey_zero : isReservedKey 0 = false := by decide

theorem collectedLines_nil (SM : SourceManager) : collectedLines SM [] = ∅ := rfl

theorem collectedLines_cons (SM : SourceManager) (S : Stmt) (rest : List Stmt) :
    collectedLines SM (S :: rest)
      = if stmtValid SM S = true ∧ stmtLine SM S ≠ 0
        then insert (stmtLine SM S) (collectedLines SM rest)
        else collectedLines SM rest := by
  by_cases hc : stmtValid SM S = true ∧ stmtLine SM S ≠ 0
  · have hb : (stmtValid SM S && decide (stmtLine SM S ≠ 0)) = true := by
      simp [hc.1, hc.2]
    simp [collectedLines, List.filter_cons, hb, hc]
  · have hb : (stmtValid SM S && decide (stmtLine SM S ≠ 0)) = false := by
      cases hv : stmtValid SM S
      · simp
      · have h0 : stmtLine SM S = 0 := by
          by_contra h
          exact hc ⟨hv, h⟩
        simp [h0]
    simp [collectedLines, List.filter_cons, hb, hc]

theorem mem_collectedLines (SM : SourceManager) (stmts : List Stmt) (l : Nat) :
    l ∈ collectedLines SM stmts
      ↔ ∃ n ∈ stmts, stmtValid SM n = true ∧ stmtLine SM n = l ∧ l ≠ 0 := by
  simp only [collectedLines, List.mem_toFinset, List.mem_map, List.mem_filter,
    Bool.and_eq_true, decide_eq_true_eq]
  constructor
  · rintro ⟨n, ⟨hn, hv, h0⟩, hl⟩
    exact ⟨n, hn, hv, hl, hl ▸ h0⟩
  · rintro ⟨n, hn, hv, hl, h0⟩
    exact ⟨n, ⟨hn, hv, hl ▸ h0⟩, hl⟩

/-- The walk fails exactly when some visited statement inserts a reserved key, and
otherwise adds exactly the collected lines. -/
theorem visitAll_eq (SM : SourceManager) (stmts : List Stmt) :
    ∀ Summary : TranslationSummary,
      visitAll SM stmts Summary
        = if stmts.any (stmtReserved SM) = true then none
          else some { Filename := Summary.Filename,
                      LineNumbers := Summary.LineNumbers ∪ collectedLines SM stmts } := by
  induction stmts with
  | nil =>
    intro Summary
    simp [visitAll, collectedLines_nil]
  | cons S rest ih =>
    intro Summary
    simp only [visitAll]
    rw [VisitStmt_eq, collectedLines_cons, List.any_cons]
    by_cases hc : stmtValid SM S = true ∧ stmtLine SM S ≠ 0
    · rw [if_pos hc, if_pos hc]
      cases hr : isReservedKey (stmtLine SM S)
      · have hres : stmtReserved SM S = false := by simp [stmtReserved, hr]
        simp only [hres, Bool.false_or, Bool.false_eq_true, if_false, if_true, ih]
        have hU : insert (stmtLine SM S) Summary.LineNumbers ∪ collectedLines SM rest
            = Summary.LineNumbers ∪ insert (stmtLine SM S) (collectedLines SM rest) := by
          ext l
          simp only [Finset.mem_union, Finset.mem_insert]
          tauto
        rw [hU]
      · have hres : stmtReserved SM S = true := by simp [stmtReserved, hr, hc.1]
        simp [hres]
    · rw [if_neg hc, if_neg hc]
      have hres : stmtReserved SM S = false := by
        cases hv : stmtValid SM S
        · simp [stmtReserved, hv]
        · have h0 : stmtLine SM S = 0 := by
            by_contra h
            exact hc ⟨hv, h⟩
          simp [stmtReserved, h0, isReservedKey_zero]
      simp only [hres, Bool.false_or, if_true, ih]

theorem visitAll_new_eq (SM : SourceManager) (stmts : List Stmt) (f : List Char) :
    visitAll SM stmts (TranslationSummary.new f)
      = if stmts.any (stmtReserved SM) = true then none
        else some { Filename := f, LineNumbers := collectedLines SM stmts } := by
  rw [visitAll_eq]
  simp [TranslationSummary.new]

theorem any_stmtReserved_eq_false (SM : SourceManager) (stmts : List Stmt)
    (h : ∀ n ∈ stmts, stmtValid SM n = true → isReservedKey (stmtLine SM n) = false) :
    stmts.any (stmtReserved SM) = false := by
  rw [List.any_eq_false]
  intro n hn
  cases hv : stmtValid SM n
  · simp [stmtReserved, hv]
  · simp [stmtReserved, hv, h n hn hv]

theorem collectedLines_perm (SM : SourceManager) (l₁ l₂ : List Stmt) (h : l₁.Perm l₂) :
    collectedLines SM l₁ = collectedLines SM l₂ := by
  ext l
  rw [mem_collectedLines, mem_collectedLines]
  constructor
  · rintro ⟨n, hn, hr⟩
    exact ⟨n, h.mem_iff.mp hn, hr⟩
  · rintro ⟨n, hn, hr⟩
    exact ⟨n, h.mem_iff.mpr hn, hr⟩

/-- C4: the walk does not deliver the exact line set for every resolution function.
A valid statement resolving to line 4294967295 or 4294967294 (a reserved key of the
container) makes the insertion fail and no line set results.  The walk from a fresh
summary fails exactly when some visited statement has a valid location resolving to
a reserved key; in every other case the final set is exactly the set of `line(n)`
for visited `n` with valid location and non-zero line (so `0` is not a member, and
lines 3,3,7,9,9,9 give size 3). -/
theorem C4_line_collection_reserved_key (f : List Char) :
    visitAll lineSM [⟨5⟩, ⟨4294967295⟩] (TranslationSummary.new f) = none
    ∧ visitAll lineSM [⟨4294967294⟩, ⟨5⟩] (TranslationSummary.new f) = none
    ∧ (∀ (SM : SourceManager) (stmts : List Stmt),
        visitAll SM stmts (TranslationSummary.new f)
          = if stmts.any
                (fun n => stmtValid SM n && isReservedKey (stmtLine SM n)) = true
            then none
            else some { Filename := f, LineNumbers := collectedLines SM stmts })
    ∧ (∀ (SM : SourceManager) (stmts : List Stmt) (l : Nat),
        l ∈ collectedLines SM stmts
          ↔ ∃ n ∈ stmts, stmtValid SM n = true ∧ stmtLine SM n = l ∧ l ≠ 0)
    ∧ (∀ (SM : SourceManager) (stmts : List Stmt), 0 ∉ collectedLines SM stmts)
    ∧ (∀ (SM : SourceManager) (Summary : TranslationSummary) (n : Stmt),
        stmtValid SM n = false → VisitStmt SM Summary n = some (true, Summary))
    ∧ (visitAll boundedSM [⟨3⟩, ⟨0⟩, ⟨150⟩, ⟨7⟩, ⟨3⟩] (TranslationSummary.new f)).map
        (fun S => S.LineNumbers) = some {3, 7}
    ∧ (visitAll lineSM [⟨3⟩, ⟨3⟩, ⟨7⟩, ⟨9⟩, ⟨9⟩, ⟨9⟩] (TranslationSummary.new f)).map
        (fun S => S.LineNumbers.card) = some 3 := by
  refine ⟨rfl, rfl, fun SM stmts => visitAll_new_eq SM stmts f, mem_collectedLines, ?_, ?_,
    ?_, rfl⟩
  · intro SM stmts h
    rw [mem_collectedLines] at h
    obtain ⟨_, _, _, _, h0⟩ := h
    exact h0 rfl
  · intro SM Summary n hv
    rw [VisitStmt_eq, hv]
    simp
  · have h₁ : List.any [⟨3⟩, ⟨0⟩, ⟨150⟩, ⟨7⟩, ⟨3⟩] (stmtReserved boundedSM) = false := by
      decide
    have h₂ : collectedLines boundedSM [⟨3⟩, ⟨0⟩, ⟨150⟩, ⟨7⟩, ⟨3⟩] = {3, 7} := by decide
    rw [visitAll_new_eq, h₁, h₂]
    rfl

theorem C4_line_collection_reserved_key_witness :
    stmtValid boundedSM ⟨150⟩ = false
    ∧ VisitStmt boundedSM ⟨"a.c".toList, {3}⟩ ⟨150⟩ = some (true, ⟨"a.c".toList, {3}⟩) :=
  ⟨by decide,
    (C4_line_collection_reserved_key "a.c".toList).2.2.2.2.2.1 boundedSM
      ⟨"a.c".toList, {3}⟩ ⟨150⟩ (by decide)⟩

/-- C7: order independence does not hold for every sequence.  With statements at
lines 4294967295 (a reserved key of the container) and 5, neither visiting order
yields a line set and nothing is written.  For every sequence in which no valid
statement resolves to a reserved key, and every permutation of it, both walks from a
fresh summary succeed with the same summary, and the consumer writes the same text
for every template. -/
theorem C7_order_independence_reserved_key (f : List Char) :
    (visitAll lineSM [⟨4294967295⟩, ⟨5⟩] (TranslationSummary.new f) = none
      ∧ visitAll lineSM [⟨5⟩, ⟨4294967295⟩] (TranslationSummary.new f) = none)
    ∧ (∀ t : List Char,
        SummaryPluginConsumer.HandleTranslationUnit ⟨f, t⟩ lineSM [⟨4294967295⟩, ⟨5⟩] = none
        ∧ SummaryPluginConsumer.HandleTranslationUnit ⟨f, t⟩ lineSM [⟨5⟩, ⟨4294967295⟩]
            = none)
    ∧ (∀ (SM : SourceManager) (l₁ l₂ : List Stmt), l₁.Perm l₂ →
        (∀ n ∈ l₁, stmtValid SM n = true → isReservedKey (stmtLine SM n) = false) →
        ∃ S : TranslationSummary,
          visitAll SM l₁ (TranslationSummary.new f) = some S
          ∧ visitAll SM l₂ (TranslationSummary.new f) = some S
          ∧ ∀ t : List Char,
              SummaryPluginConsumer.HandleTranslationUnit ⟨f, t⟩ SM l₁ = some (dump S t)
              ∧ SummaryPluginConsumer.HandleTranslationUnit ⟨f, t⟩ SM l₂
                  = some (dump S t)) := by
  refine ⟨⟨rfl, rfl⟩, fun t => ⟨rfl, rfl⟩, ?_⟩
  intro SM l₁ l₂ hp h₁
  have h₂ : ∀ n ∈ l₂, stmtValid SM n = true → isReservedKey (stmtLine SM n) = false :=
    fun n hn => h₁ n (hp.mem_iff.mpr hn)
  have e₁ : visitAll SM l₁ (TranslationSummary.new f)
      = some { Filename := f, LineNumbers := collectedLines SM l₁ } := by
    rw [visitAll_new_eq, any_stmtReserved_eq_false SM l₁ h₁]
    simp
  have e₂ : visitAll SM l₂ (TranslationSummary.new f)
      = some { Filename := f, LineNumbers := collectedLines SM l₁ } := by
    rw [visitAll_new_eq, any_stmtReserved_eq_false SM l₂ h₂, collectedLines_perm SM l₁ l₂ hp]
    simp
  refine ⟨_, e₁, e₂, fun t => ⟨?_, ?_⟩⟩
  · simp only [SummaryPluginConsumer.HandleTranslationUnit, e₁]
  · simp only [SummaryPluginConsumer.HandleTranslationUnit, e₂]

theorem C7_order_independence_reserved_key_witness :
    List.Perm ([⟨3⟩, ⟨7⟩, ⟨3⟩, ⟨9⟩] : List Stmt) [⟨9⟩, ⟨3⟩, ⟨3⟩, ⟨7⟩]
    ∧ (∀ n ∈ ([⟨3⟩, ⟨7⟩, ⟨3⟩, ⟨9⟩] : List Stmt),
        stmtValid lineSM n = true → isReservedKey (stmtLine lineSM n) = false)
    ∧ (∃ S : TranslationSummary,
        visitAll lineSM [⟨3⟩, ⟨7⟩, ⟨3⟩, ⟨9⟩] (TranslationSummary.new "a.c".toList) = some S
        ∧ visitAll lineSM [⟨9⟩, ⟨3⟩, ⟨3⟩, ⟨7⟩] (TranslationSummary.new "a.c".toList) = some S
        ∧ ∀ t : List Char,
            SummaryPluginConsumer.HandleTranslationUnit ⟨"a.c".toList, t⟩ lineSM
                [⟨3⟩, ⟨7⟩, ⟨3⟩, ⟨9⟩] = some (dump S t)
            ∧ SummaryPluginConsumer.HandleTranslationUnit ⟨"a.c".toList, t⟩ lineSM
                [⟨9⟩, ⟨3⟩, ⟨3⟩, ⟨7⟩] = some (dump S t))
    ∧ SummaryPluginConsumer.HandleTranslationUnit ⟨"a.c".toList, "%F:%L".toList⟩ lineSM
          [⟨9⟩, ⟨3⟩, ⟨3⟩, ⟨7⟩] = some "a.c:3\n".toList :=
  have hp : List.Perm ([⟨3⟩, ⟨7⟩, ⟨3⟩, ⟨9⟩] : List Stmt) [⟨9⟩, ⟨3⟩, ⟨3⟩, ⟨7⟩] := by decide
  have hr : ∀ n ∈ ([⟨3⟩, ⟨7⟩, ⟨3⟩, ⟨9⟩] : List Stmt),
      stmtValid lineSM n = true → isReservedKey (stmtLine lineSM n) = false := by decide
  ⟨hp, hr,
    (C7_order_independence_reserved_key "a.c".toList).2.2 lineSM
      [⟨3⟩, ⟨7⟩, ⟨3⟩, ⟨9⟩] [⟨9⟩, ⟨3⟩, ⟨3⟩, ⟨7⟩] hp hr,
    by decide⟩

/-! ## Template resolution -/

theorem findFrom_ge (pat : List Char) (s : List Char) :
    ∀ (pos q : Nat), findFrom pat s pos = some q → pos ≤ q := by
  induction s with
  | nil =>
    intro pos q h
    by_cases hp : pat = []
    · simp [findFrom, hp] at h; omega
    · simp [findFrom, hp] at h
  | cons c cs ih =>
    intro pos q h
    by_cases hp : pat.isPrefixOf (c :: cs) = true
    · simp [findFrom, hp] at h; omega
    · simp only [findFrom, hp] at h
      have := ih (pos + 1) q (by simpa using h)
      omega

/-- The test `find(pat) == 0` holds exactly when the string begins with `pat`. -/
theorem find_eq_zero_iff (s pat : List Char) :
    find s pat = some 0 ↔ pat.isPrefixOf s = true := by
  cases s with
  | nil =>
    cases pat with
    | nil => simp [find, findFrom]
    | cons p ps => simp [find, findFrom, List.isPrefixOf]
  | cons c cs =>
    by_cases hp : pat.isPrefixOf (c :: cs) = true
    · simp [find, findFrom, hp]
    · simp only [find, findFrom, hp]
      constructor
      · intro h
        have := findFrom_ge pat cs 1 0 (by simpa using h)
        omega
      · intro h; exact absurd h (by simp)

theorem substr_of_fmtOpt (a : List Char) (h : fmtOpt.isPrefixOf a = true) :
    substr a (strlen fmtOpt) = some (a.drop 5) := by
  have hp : fmtOpt <+: a := List.isPrefixOf_iff_prefix.mp h
  have hl : fmtOpt.length ≤ a.length := hp.length_le
  have h5 : fmtOpt.length = 5 := by decide
  have e : strlen fmtOpt = 5 := h5
  rw [e]
  unfold substr
  rw [if_pos (by omega)]

/-- The argument loop never throws; it returns the text after `-fmt=` of the last
argument beginning with `-fmt=`, or the incoming value if there is none. -/
theorem parseArgsLoop_eq (Args : List (List Char)) :
    ∀ FormatString : List Char,
      parseArgsLoop Args FormatString
        = some (match (Args.filter (fun a => fmtOpt.isPrefixOf a)).getLast? with
            | some a => a.drop 5
            | none => FormatString) := by
  induction Args with
  | nil => intro fs; rfl
  | cons a rest ih =>
    intro fs
    by_cases hp : fmtOpt.isPrefixOf a = true
    · have hf : find a fmtOpt = some 0 := (find_eq_zero_iff a fmtOpt).mpr hp
      simp only [parseArgsLoop, hf, if_true, substr_of_fmtOpt a hp, ih, List.filter_cons, hp]
      cases hl : (rest.filter (fun a => fmtOpt.isPrefixOf a)) with
      | nil => simp
      | cons b u => simp [List.getLast?_eq_getLast (b :: u) (List.cons_ne_nil b u)]
    · have hf : ¬ find a fmtOpt = some 0 := fun e => hp ((find_eq_zero_iff a fmtOpt).mp e)
      simp only [parseArgsLoop, hf, if_false, ih, List.filter_cons, hp]
      simp

theorem ParseArgs_eq (self : SummaryPluginAction) (Args : List (List Char))
    (getenv : List Char → Option (List Char)) :
    self.ParseArgs Args getenv
      = some (true, { FormatString := resolveTemplateSpec Args (getenv FMT_ENV_VAR) }) := by
  simp only [SummaryPluginAction.ParseArgs, parseArgsLoop_eq, resolveTemplateSpec]

theorem filter_fmtOpt_eq_nil (Args : List (List Char))
    (h : ∀ a ∈ Args, ¬ fmtOpt <+: a) :
    Args.filter (fun a => fmtOpt.isPrefixOf a) = [] := by
  rw [List.filter_eq_nil_iff]
  intro a ha hp
  exact h a ha (List.isPrefixOf_iff_prefix.mp hp)

theorem dumpBuffer_default (S : TranslationSummary) :
    dumpBuffer S "[%F] -- %L Lines".toList
      = "[".toList ++ S.Filename ++ "] -- ".toList ++ to_string S.LineNumbers.card
          ++ " Lines".toList := by
  rw [dumpBuffer_eq_emit]
  simp [emit, convText, CONV_FILE, CONV_LINE]

/-- C2: for every argument list and environment, `ParseArgs` returns `true` and
leaves in `FormatString` the value of `SUMMARYPLUGIN_FMT` whenever it is set (even if
`-fmt=` arguments are present), otherwise the text after `-fmt=` of the last argument
that begins with `-fmt=`, otherwise `[%F] -- %L Lines`.  With the option `-fmt=X%LY`
and environment value `Z` the result is `Z`; with the option alone it is `X%LY`. -/
theorem C2_template_resolution_priority (self : SummaryPluginAction) :
    (∀ (Args : List (List Char)) (getenv : List Char → Option (List Char)),
      self.ParseArgs Args getenv
        = some (true, { FormatString := resolveTemplateSpec Args (getenv FMT_ENV_VAR) }))
    ∧ (∀ (Args : List (List Char)) (getenv : List Char → Option (List Char)) (E : List Char),
        getenv FMT_ENV_VAR = some E →
          self.ParseArgs Args getenv = some (true, { FormatString := E }))
    ∧ (∀ (pre post : List (List Char)) (v : List Char)
        (getenv : List Char → Option (List Char)),
        getenv FMT_ENV_VAR = none → (∀ a ∈ post, ¬ fmtOpt <+: a) →
          self.ParseArgs (pre ++ (fmtOpt ++ v) :: post) getenv
            = some (true, { FormatString := v }))
    ∧ (∀ (Args : List (List Char)) (getenv : List Char → Option (List Char)),
        getenv FMT_ENV_VAR = none → (∀ a ∈ Args, ¬ fmtOpt <+: a) →
          self.ParseArgs Args getenv
            = some (true, { FormatString := "[%F] -- %L Lines".toList }))
    ∧ self.ParseArgs ["-fmt=X%LY".toList]
          (fun name => if name = FMT_ENV_VAR then some "Z".toList else none)
        = some (true, { FormatString := "Z".toList })
    ∧ self.ParseArgs ["-fmt=X%LY".toList] (fun _ => none)
        = some (true, { FormatString := "X%LY".toList }) := by
  refine ⟨ParseArgs_eq self, ?_, ?_, ?_, rfl, rfl⟩
  · intro Args getenv E hE
    rw [ParseArgs_eq, hE]
    rfl
  · intro pre post v getenv hE hpost
    have hp : fmtOpt.isPrefixOf (fmtOpt ++ v) = true :=
      List.isPrefixOf_iff_prefix.mpr (List.prefix_append fmtOpt v)
    have hd : (fmtOpt ++ v).drop 5 = v := by
      have h5 : fmtOpt.length = 5 := by decide
      rw [← h5, List.drop_left]
    rw [ParseArgs_eq, hE]
    simp only [resolveTemplateSpec, List.filter_append, List.filter_cons, hp, if_true,
      filter_fmtOpt_eq_nil post hpost]
    rw [List.getLast?_append_cons, List.getLast?_singleton]
    simp only [hd]
  · intro Args getenv hE hArgs
    rw [ParseArgs_eq, hE]
    simp only [resolveTemplateSpec, filter_fmtOpt_eq_nil Args hArgs]
    rfl

theorem C2_template_resolution_priority_witness :
    SummaryPluginAction.ParseArgs ⟨[]⟩
        ["-fmt=first".toList, "-fmt=X%LY".toList, "-v".toList] (fun _ => none)
      = some (true, { FormatString := "X%LY".toList }) :=
  (C2_template_resolution_priority ⟨[]⟩).2.2.1 ["-fmt=first".toList] ["-v".toList]
    "X%LY".toList (fun _ => none) rfl (by decide)

/-- C1: when no argument begins with `-fmt=` and `SUMMARYPLUGIN_FMT` is unset,
`ParseArgs` succeeds and, with the `FormatString` it leaves, `dump` writes exactly
`[` file name `] -- ` decimal size of the line set ` Lines` followed by one newline,
for every file name and line set; the consumer created from the action writes that
text end to end for the line set collected from any sequence of statements, and
writes nothing exactly when the walk itself fails. -/
theorem C1_default_template_output (self : SummaryPluginAction) (Args : List (List Char))
    (getenv : List Char → Option (List Char))
    (hArgs : ∀ a ∈ Args, ¬ "-fmt=".toList <+: a) (hEnv : getenv FMT_ENV_VAR = none) :
    ∃ A : SummaryPluginAction, self.ParseArgs Args getenv = some (true, A)
      ∧ (∀ (f : List Char) (s : Finset Nat),
          dump ⟨f, s⟩ A.FormatString
            = "[".toList ++ f ++ "] -- ".toList ++ to_string s.card ++ " Lines".toList
                ++ ['\n'])
      ∧ (∀ (f : List Char) (SM : SourceManager) (stmts : List Stmt),
          (A.CreateASTConsumer f).HandleTranslationUnit SM stmts
            = (visitAll SM stmts (TranslationSummary.new f)).map
                (fun S => "[".toList ++ f ++ "] -- ".toList
                  ++ to_string S.LineNumbers.card ++ " Lines".toList ++ ['\n'])) := by
  have hA : self.ParseArgs Args getenv
      = some (true, { FormatString := "[%F] -- %L Lines".toList }) := by
    rw [ParseArgs_eq, hEnv]
    simp only [resolveTemplateSpec, filter_fmtOpt_eq_nil Args hArgs]
    rfl
  refine ⟨{ FormatString := "[%F] -- %L Lines".toList }, hA, ?_, ?_⟩
  · intro f s
    have hd : dump ⟨f, s⟩ "[%F] -- %L Lines".toList
        = dumpBuffer ⟨f, s⟩ "[%F] -- %L Lines".toList ++ ['\n'] := rfl
    rw [hd, dumpBuffer_default]
  · intro f SM stmts
    have hd : ∀ S : TranslationSummary, dump S "[%F] -- %L Lines".toList
        = dumpBuffer S "[%F] -- %L Lines".toList ++ ['\n'] := fun _ => rfl
    simp only [SummaryPluginAction.CreateASTConsumer,
      SummaryPluginConsumer.HandleTranslationUnit]
    rw [visitAll_new_eq]
    cases hb : stmts.any (stmtReserved SM)
    · simp only [Bool.false_eq_true, if_false, Option.map_some']
      rw [hd, dumpBuffer_default]
    · rfl

theorem C1_default_template_output_witness :
    (∀ a ∈ ["-v".toList, "fmt=x".toList], ¬ "-fmt=".toList <+: a)
    ∧ (∃ A : SummaryPluginAction,
        SummaryPluginAction.ParseArgs ⟨[]⟩ ["-v".toList, "fmt=x".toList] (fun _ => none)
          = some (true, A)
        ∧ dump ⟨"foo.c".toList, {1, 2, 3}⟩ A.FormatString = "[foo.c] -- 3 Lines\n".toList) := by
  have hArgs : ∀ a ∈ ["-v".toList, "fmt=x".toList], ¬ "-fmt=".toList <+: a := by
    intro a ha
    rw [← List.isPrefixOf_iff_prefix]
    revert a
    decide
  obtain ⟨A, hA, hdump, _⟩ := C1_default_template_output ⟨[]⟩
    ["-v".toList, "fmt=x".toList] (fun _ => none) hArgs rfl
  refine ⟨hArgs, A, hA, ?_⟩
  rw [hdump "foo.c".toList {1, 2, 3}]
  decide

end SummaryPlugin
